import Mathlib

/-!
Verification development for the anymock WebSocket mock server.

The definitions below are a shallow embedding of the Rust sources:

* `src/json.rs`      — `JsonValue` and its conversions from/to `serde_json::Value`;
* `src/matchers.rs`  — the scalar matchers, `JsonMatcher` and `BodyMatcher` scoring;
* `src/ws/stubs.rs`  — `Stub`, `Delay`, `Msg`, scoring, materialization and the
  registry lookup (`get_message`, `on_connect`, `on_periodical`);
* `src/ws/builders.rs` — the delay normalization done by the builders;
* `src/ws/mod.rs`    — the per-session scheduling loop of `Server::run`.

Modelling conventions:

* `u16` scores and `usize` lengths are modeled as `Nat`; `i128` as `Int`.
  The claims under study never exercise integer overflow.
* Rust `Instant` and `Duration` are modeled as natural numbers (milliseconds).
* `f64` payload values are modeled by `ℚ`: JSON text cannot denote NaN or an
  infinity, so every float that reaches the code through the parser is finite
  and is carried around untouched; only order and equality are used.
* `HashMap` is modeled as an association list queried with `List.lookup`
  (first binding wins); updates cons a fresh binding in front.
* `rand::rng().random_range(lo..hi)` panics when the range `lo..hi` is empty
  (`lo ≥ hi`) and otherwise returns a value of `[lo, hi)`; it is modeled by an
  oracle `rng : Nat`, the result being `lo + rng % (hi - lo)`, which ranges
  over exactly `[lo, hi)`. Panics are modeled as `none` results.
* The thread-local `PERIODICALLY_STUBS_INVOCATION_COUNT` map is passed around
  explicitly as a value of type `Cnt`.
-/

/-- Session headers captured at handshake time: `HashMap<String, String>`. -/
abbrev Headers := List (String × String)

/-- The per-thread periodical invocation counter: `HashMap<String, usize>`. -/
abbrev Cnt := List (String × Nat)

/-- Text matcher, from `src/matchers.rs` (`enum TextMatcher`).  The regex engine
is external; a compiled `Regex` is modeled by its match predicate.  `Fn` carries
the user-supplied scoring function. -/
inductive TextMatcher where
  | Fn (f : Option String → Nat)
  | Eq (s : String)
  | Regex (isMatch : String → Bool)
  | Contains (s : String)
  | NotContains (s : String)
  | LenEq (n : Nat)
  | LenGreaterThan (n : Nat)
  | LenLessThan (n : Nat)
  | Any
  | None

/-- Substring test: Rust `str::contains`.  Byte-level substring search on valid
UTF-8 coincides with character-level infix (UTF-8 is self-synchronizing). -/
def strContains (hay sub : String) : Bool :=
  decide (List.IsInfix sub.toList hay.toList)

/-- Scoring of a text matcher, from `TextMatcher::score` in `src/matchers.rs`.
Rust `str::len` counts bytes, modeled by `String.utf8ByteSize`.  Arm order and
guards follow the source `match`; a guarded arm that fails its guard falls
through to the final `_ => 0` arm. -/
def TextMatcher.score : TextMatcher → Option String → Nat
  | .Eq part, some v => if v = part then 8 else 0
  | .Regex isMatch, some v => if isMatch v then 7 else 0
  | .Contains part, some v => if strContains v part then 6 else 0
  | .NotContains part, some v => if strContains v part then 0 else 5
  | .LenEq len, some v => if v.utf8ByteSize = len then 4 else 0
  | .LenGreaterThan len, some v => if len < v.utf8ByteSize then 3 else 0
  | .LenLessThan len, some v => if v.utf8ByteSize < len then 3 else 0
  | .None, none => 2
  | .Any, some _ => 1
  | .Fn f, v => f v
  | _, _ => 0

/-- Binary matcher, from `src/matchers.rs` (`enum BinaryMatcher`); `Vec<u8>` is
modeled as `List Nat`. -/
inductive BinaryMatcher where
  | Fn (f : Option (List Nat) → Nat)
  | Eq (b : List Nat)
  | Contains (b : List Nat)
  | Any
  | None

/-- Scoring of a binary matcher, from `BinaryMatcher::score`.  The source
checks `part.len() <= v.len()` and then scans `v.windows(part.len())`, which is
the infix test (note: `v.windows(0)` would panic in Rust; no claim exercises an
empty `Contains` pattern, which the model scores as an infix). -/
def BinaryMatcher.score : BinaryMatcher → Option (List Nat) → Nat
  | .Eq part, some v => if v = part then 4 else 0
  | .Contains part, some v => if List.IsInfix part v then 3 else 0
  | .None, none => 2
  | .Any, some _ => 1
  | .Fn f, v => f v
  | _, _ => 0

/-- Int matcher over `i128`, from `src/matchers.rs` (`enum IntMatcher`). -/
inductive IntMatcher where
  | Fn (f : Option Int → Nat)
  | Eq (n : Int)
  | LessThan (n : Int)
  | GreaterThan (n : Int)
  | Any
  | None

/-- Scoring of an int matcher, from `IntMatcher::score`. -/
def IntMatcher.score : IntMatcher → Option Int → Nat
  | .Eq m, some v => if v = m then 4 else 0
  | .LessThan m, some v => if v < m then 3 else 0
  | .GreaterThan m, some v => if m < v then 3 else 0
  | .None, none => 2
  | .Any, some _ => 1
  | .Fn f, v => f v
  | _, _ => 0

/-- Float matcher, from `src/matchers.rs` (`enum FloatMatcher`); finite `f64`
values are modeled by `ℚ`. -/
inductive FloatMatcher where
  | Fn (f : Option ℚ → Nat)
  | Eq (q : ℚ)
  | LessThan (q : ℚ)
  | GreaterThan (q : ℚ)
  | Any
  | None

/-- Scoring of a float matcher, from `FloatMatcher::score`. -/
def FloatMatcher.score : FloatMatcher → Option ℚ → Nat
  | .Eq m, some v => if v = m then 4 else 0
  | .LessThan m, some v => if v < m then 3 else 0
  | .GreaterThan m, some v => if m < v then 3 else 0
  | .None, none => 2
  | .Any, some _ => 1
  | .Fn f, v => f v
  | _, _ => 0

/-- Bool matcher, from `src/matchers.rs` (`enum BoolMatcher`). -/
inductive BoolMatcher where
  | Eq (b : Bool)
  | Any
  | None

/-- Scoring of a bool matcher, from `BoolMatcher::score`. -/
def BoolMatcher.score : BoolMatcher → Option Bool → Nat
  | .Eq m, some v => if m = v then 3 else 0
  | .None, none => 2
  | .Any, some _ => 1
  | _, _ => 0

/-- Dynamic JSON values, from `src/json.rs` (`enum JsonValue`).  Note the
variants: the file in the tree defines `PositiveInt(u64)` and
`NegativeInt(i64)` — there is no `Int` variant.  `u64` is modeled as `Nat` and
`i64` as `Int`; objects are association lists. -/
inductive JsonValue where
  | Null
  | Bool (b : Bool)
  | Str (s : String)
  | Float (q : ℚ)
  | PositiveInt (n : Nat)
  | NegativeInt (n : Int)
  | List (l : List JsonValue)
  | Object (m : List (String × JsonValue))

/-- JSON matcher tree, from `src/matchers.rs` (`enum JsonMatcher`). -/
inductive JsonMatcher where
  | Fn (f : Option JsonValue → Nat)
  | Null
  | Bool (m : BoolMatcher)
  | Str (m : TextMatcher)
  | Int (m : IntMatcher)
  | Float (m : FloatMatcher)
  | List (l : List JsonMatcher)
  | Object (m : List (String × JsonMatcher))

mutual

/-- Scoring of a JSON matcher, from `JsonMatcher::score` in `src/matchers.rs`.
Arms follow the source `match (value, self)`.  The source also contains an arm
`(Some(JsonValue::Int(v)), JsonMatcher::Int(matcher))`, but `src/json.rs`
defines no `JsonValue::Int` variant (only `PositiveInt` and `NegativeInt`), so
no runtime value can reach that arm: integer values produced by the parser fall
through to the final `(_, _) => 0` arm, as does `JsonMatcher::Fn`, for which
the source `match` has no arm either. -/
def jsonScore : JsonMatcher → Option JsonValue → Nat
  | .Null, some .Null => 1
  | .Bool m, some (.Bool v) => m.score (some v)
  | .Str m, some (.Str v) => m.score (some v)
  | .Float m, some (.Float v) => m.score (some v)
  | .List ms, some (.List vs) => (jsonScoreList ms vs).getD 0
  | .Object ms, some (.Object vm) => (jsonScoreObject ms vm).getD 0
  | _, _ => 0
termination_by structural m _ => m

/-- The list arm of `JsonMatcher::score`: zip matchers with values (stopping at
the shorter list), return 0 (modeled `none`) as soon as a child scores 0, and
otherwise the sum of the children's scores. -/
def jsonScoreList : List JsonMatcher → List JsonValue → Option Nat
  | [], _ => some 0
  | _ :: _, [] => some 0
  | m :: ms, v :: vs =>
    let s := jsonScore m (some v)
    if s = 0 then none else (jsonScoreList ms vs).map (fun r => s + r)
termination_by structural ms _ => ms

/-- The object arm of `JsonMatcher::score`: for each `(key, matcher)` score the
value found under `key` (if any), return 0 (modeled `none`) as soon as a child
scores 0, and otherwise the sum of the children's scores. -/
def jsonScoreObject : List (String × JsonMatcher) → List (String × JsonValue) → Option Nat
  | [], _ => some 0
  | (k, m) :: ms, vm =>
    let s := jsonScore m (vm.lookup k)
    if s = 0 then none else (jsonScoreObject ms vm).map (fun r => s + r)
termination_by structural ms _ => ms

end

/-- Message bodies, from `src/matchers.rs` (`enum Body`). -/
inductive Body where
  | Json (j : JsonValue)
  | Binary (b : List Nat)
  | PlainText (s : String)

/-- Body matcher, from `src/matchers.rs` (`enum BodyMatcher`). -/
inductive BodyMatcher where
  | Json (m : JsonMatcher)
  | Binary (m : BinaryMatcher)
  | PlainText (m : TextMatcher)

/-- Scoring of a body matcher, from `BodyMatcher::score`: a matcher applied to
a body of the same kind delegates with the unwrapped value; every other pair
scores 0. -/
def BodyMatcher.score : BodyMatcher → Option Body → Nat
  | .Json m, some (.Json j) => jsonScore m (some j)
  | .PlainText m, some (.PlainText s) => m.score (some s)
  | .Binary m, some (.Binary b) => m.score (some b)
  | _, _ => 0

/-- Numeric payload of a `serde_json::Value`.  The parser stores a number as an
integer exactly when the token is integral and fits `i64` or `u64`; everything
else (including integral tokens beyond `u64`) is stored as a finite `f64`,
modeled by `ℚ`. -/
inductive JNum where
  | int (n : Int)
  | float (q : ℚ)

/-- External `serde_json::Value` (the parser's output), modeled structurally:
arrays are lists and maps are association lists. -/
inductive Value where
  | null
  | bool (b : Bool)
  | str (s : String)
  | num (n : JNum)
  | arr (l : List Value)
  | obj (m : List (String × Value))

mutual

/-- Conversion `impl From<Value> for JsonValue` from `src/json.rs`:
`is_i64` first (`NegativeInt`), then `is_u64` (`PositiveInt`), then `is_f64`
(`Float`).  `Number::is_i64` is true for any stored integer in `i64` range —
including positive ones — so every parsed integer up to `i64::MAX` becomes
`NegativeInt`.  The source's `unreachable!()` arm (an integer outside both
ranges, which `serde_json` never produces) is modeled as `Null`. -/
def fromValue : Value → JsonValue
  | .null => .Null
  | .bool b => .Bool b
  | .str s => .Str s
  | .num (.int n) =>
    if -(2 ^ 63) ≤ n ∧ n < 2 ^ 63 then .NegativeInt n
    else if 0 ≤ n ∧ n < 2 ^ 64 then .PositiveInt n.toNat
    else .Null
  | .num (.float q) => .Float q
  | .arr l => .List (fromValueList l)
  | .obj m => .Object (fromValueObject m)
termination_by structural v => v

/-- Elementwise conversion of a JSON array. -/
def fromValueList : List Value → List JsonValue
  | [] => []
  | v :: vs => fromValue v :: fromValueList vs
termination_by structural l => l

/-- Entrywise conversion of a JSON object. -/
def fromValueObject : List (String × Value) → List (String × JsonValue)
  | [] => []
  | (k, v) :: vs => (k, fromValue v) :: fromValueObject vs
termination_by structural l => l

end

mutual

/-- Conversion `impl From<&JsonValue> for Value` from `src/json.rs`
(serialization direction).  `Number::from_i128` on an `i64` and
`Number::from_u128` on a `u64` always succeed; `Number::from_f64` fails only on
NaN or infinities, which the `ℚ` model of finite doubles cannot represent, so
the conversion is total here. -/
def toValue : JsonValue → Value
  | .Null => .null
  | .Bool b => .bool b
  | .Str s => .str s
  | .Float q => .num (.float q)
  | .PositiveInt n => .num (.int n)
  | .NegativeInt n => .num (.int n)
  | .List l => .arr (toValueList l)
  | .Object m => .obj (toValueObject m)
termination_by structural j => j

/-- Elementwise serialization of a `JsonValue` list. -/
def toValueList : List JsonValue → List Value
  | [] => []
  | v :: vs => toValue v :: toValueList vs
termination_by structural l => l

/-- Entrywise serialization of a `JsonValue` object. -/
def toValueObject : List (String × JsonValue) → List (String × Value)
  | [] => []
  | (k, v) :: vs => (k, toValue v) :: toValueObject vs
termination_by structural l => l

end

mutual

/-- Parser wellformedness of a `Value`: every integer lies in the union of the
`i64` and `u64` ranges, i.e. `[-2^63, 2^64)`.  `serde_json` (without arbitrary
precision) parses any integral token outside this window as a float, so every
value produced by the external parser satisfies this predicate. -/
def valueWF : Value → Bool
  | .null => true
  | .bool _ => true
  | .str _ => true
  | .num (.int n) => decide (-(2 ^ 63) ≤ n ∧ n < 2 ^ 64)
  | .num (.float _) => true
  | .arr l => valueWFList l
  | .obj m => valueWFObject m
termination_by structural v => v

/-- Wellformedness of every element of a JSON array. -/
def valueWFList : List Value → Bool
  | [] => true
  | v :: vs => valueWF v && valueWFList vs
termination_by structural l => l

/-- Wellformedness of every entry of a JSON object. -/
def valueWFObject : List (String × Value) → Bool
  | [] => true
  | (_, v) :: vs => valueWF v && valueWFObject vs
termination_by structural l => l

end

/-- Delay policy of a stub, from `src/ws/stubs.rs` (`enum Delay`); durations in
milliseconds. -/
inductive Delay where
  | Fixed (d : Nat)
  | Interval (lo hi : Nat)

/-- Outbound WebSocket frame (`tungstenite::Message`) as built by
`Stub::message`.  A `Body::Json` response is sent as a text frame holding the
serialized JSON; the serialized string is kept symbolic as `textJson`. -/
inductive WsMessage where
  | text (s : String)
  | textJson (j : JsonValue)
  | binary (b : List Nat)

/-- A scheduled outbound message, from `src/ws/stubs.rs`
(`struct Msg(Message, Instant)`). -/
structure Msg where
  payload : WsMessage
  available_at : Nat

/-- The `Ord` implementation on `Msg` from `src/ws/stubs.rs`:
`if self.1 >= other.1 { Ordering::Less } else { Ordering::Greater }`. -/
def Msg.cmp (a b : Msg) : Ordering :=
  if b.available_at ≤ a.available_at then .lt else .gt

/-- Payload/header matchers of a `Message` stub, from `src/ws/stubs.rs`
(`struct RequestMatcher`). -/
structure RequestMatcher where
  headers : Option (List (String × TextMatcher))
  payload : Option BodyMatcher

/-- The three stub kinds, from `src/ws/stubs.rs` (`enum Stub`). -/
inductive Stub where
  | Connect (headers : Option (List (String × TextMatcher))) (response : Body)
  | Message (request : RequestMatcher) (delay : Delay) (response : Body)
  | Periodical (id : String) (headers : Option (List (String × TextMatcher)))
      (delay : Delay) (responses : List Body)

/-- Accumulation of header-matcher scores, from the `for (k, matcher)` loops in
`Stub::score`: `none` models the early `return 0` taken when a header matcher
scores 0, otherwise the sum of the header scores is returned. -/
def headersScore : List (String × TextMatcher) → Headers → Option Nat
  | [], _ => some 0
  | (k, m) :: rest, hs =>
    let s := m.score (hs.lookup k)
    if s = 0 then none else (headersScore rest hs).map (fun r => s + r)

/-- Availability check of a Periodical stub, from `Stub::score`
(`map.get(id).is_none_or(|&invocation| invocation < responses.len())`). -/
def periodicalAvailable (cnt : Cnt) (id : String) (len : Nat) : Bool :=
  match cnt.lookup id with
  | none => true
  | some n => decide (n < len)

/-- Stub scoring, from `Stub::score` in `src/ws/stubs.rs`: base score 1, plus
each header matcher's score (early 0 when one scores 0); a `Message` stub also
gates on and adds its payload matcher's score; a `Periodical` stub scores 0
when its invocation counter has reached `responses.len()`. -/
def Stub.score (stub : Stub) (payload : Option Body) (hs : Headers) (cnt : Cnt) : Nat :=
  match stub with
  | .Connect headers _ =>
    match headers with
    | none => 1
    | some hm =>
      match headersScore hm hs with
      | none => 0
      | some s => 1 + s
  | .Message req _ _ =>
    match (match req.headers with | none => some 0 | some hm => headersScore hm hs) with
    | none => 0
    | some hsum =>
      match req.payload with
      | none => 1 + hsum
      | some pm =>
        let ps := pm.score payload
        if ps = 0 then 0 else 1 + hsum + ps
  | .Periodical id headers _ responses =>
    match (match headers with | none => some 0 | some hm => headersScore hm hs) with
    | none => 0
    | some hsum =>
      if periodicalAvailable cnt id responses.length then 1 + hsum else 0

/-- Materialized `available_at`, from the delay arm of `Stub::message`:
`Fixed(d)` yields `now + d`; `Interval(lo, hi)` draws
`random_range(lo..hi)`, which panics (`none`) when the range is empty
(`lo ≥ hi`) and otherwise lands in `[lo, hi)`. -/
def delayedAt (delay : Delay) (now rng : Nat) : Option Nat :=
  match delay with
  | .Fixed d => some (now + d)
  | .Interval lo hi => if lo < hi then some (now + (lo + rng % (hi - lo))) else none

/-- Framing of a response body, from the final `match response` of
`Stub::message`. -/
def Body.toFrame : Body → WsMessage
  | .Json j => .textJson j
  | .PlainText s => .text s
  | .Binary b => .binary b

/-- Stub materialization, from `Stub::message` in `src/ws/stubs.rs`: compute
`available_at` (a `Connect` stub uses `now` directly), pick the response — a
`Periodical` stub reads its invocation counter, bumps it and indexes
`responses` with the old value (the source `.expect`s the index to be in
bounds; an out-of-range cursor is modeled as `none`) — and frame it.  `none`
models a panic. -/
def Stub.message (stub : Stub) (cnt : Cnt) (now rng : Nat) : Option (Msg × Cnt) :=
  match stub with
  | .Connect _ response => some (⟨response.toFrame, now⟩, cnt)
  | .Message _ delay response =>
    (delayedAt delay now rng).map (fun t => (⟨response.toFrame, t⟩, cnt))
  | .Periodical id _ delay responses =>
    match delayedAt delay now rng with
    | none => none
    | some t =>
      let idx := (cnt.lookup id).getD 0
      match responses.get? idx with
      | none => none
      | some r => some (⟨r.toFrame, t⟩, (id, idx + 1) :: cnt)

/-- The accumulator fold inside `StubsHandle::get_message`: scan the stubs in
registration order keeping `(Option<&Stub>, u16)`, replacing the current best
exactly when a stub's score is strictly greater. -/
def selectGo (payload : Option Body) (hs : Headers) (cnt : Cnt) :
    List Stub → Option Stub × Nat → Option Stub × Nat
  | [], acc => acc
  | stub :: rest, acc =>
    let s := stub.score payload hs cnt
    if acc.2 < s then selectGo payload hs cnt rest (some stub, s)
    else selectGo payload hs cnt rest acc

/-- The stub selected by `StubsHandle::get_message` before materialization:
the fold starting from `(None, 0)`. -/
def selectStub (stubs : List Stub) (hs : Headers) (payload : Option Body) (cnt : Cnt) :
    Option Stub :=
  (selectGo payload hs cnt stubs (none, 0)).1

/-- Registry lookup, from `StubsHandle::get_message` in `src/ws/stubs.rs`:
select the best-scoring stub and materialize it.  The outer `Option` models a
panic inside `Stub::message`; `some none` is the source's `None` result (no
stub scored above 0).  Lock poisoning (the `else` branch of `stubs.read()`) is
a concurrency failure outside this model. -/
def get_message (stubs : List Stub) (hs : Headers) (payload : Option Body) (cnt : Cnt)
    (now rng : Nat) : Option (Option (Msg × Cnt)) :=
  match selectStub stubs hs payload cnt with
  | none => some none
  | some stub =>
    match stub.message cnt now rng with
    | none => none
    | some r => some (some r)

/-- Entry point `StubsHandle::on_connect`: `get_message` over the connect
stubs with no payload. -/
def on_connect (connectStubs : List Stub) (hs : Headers) (cnt : Cnt) (now rng : Nat) :
    Option (Option (Msg × Cnt)) :=
  get_message connectStubs hs none cnt now rng

/-- Iteration of `StubsHandle::on_periodical`'s `from_fn` loop: keep calling
`get_message` over the periodical stubs, collecting messages, until it yields
`None` (each successful call bumps the selected stub's invocation counter, so
the Rust loop terminates once every periodical stub is exhausted; the explicit
`fuel` bounds that iteration in the model, and a modeled panic also stops
it). -/
def onPeriodicalAux : Nat → List Stub → Headers → Cnt → Nat → Nat → List Msg × Cnt
  | 0, _, _, cnt, _, _ => ([], cnt)
  | fuel + 1, stubs, hs, cnt, now, rng =>
    match get_message stubs hs none cnt now rng with
    | some (some (msg, cnt')) =>
      let rest := onPeriodicalAux fuel stubs hs cnt' now rng
      (msg :: rest.1, rest.2)
    | _ => ([], cnt)

/-- Total number of periodical responses across a stub list; one more than
this bounds the `from_fn` iteration of `on_periodical`, since every produced
message bumps some counter towards its stub's `responses.len()`. -/
def totalResponses : List Stub → Nat
  | [] => 0
  | .Periodical _ _ _ responses :: rest => responses.length + totalResponses rest
  | _ :: rest => totalResponses rest

/-- Entry point `StubsHandle::on_periodical`: collect the materialized
messages and return them only when at least one was produced
(`(!messages.is_empty()).then_some(messages)`). -/
def on_periodical (periodicalStubs : List Stub) (hs : Headers) (cnt : Cnt) (now rng : Nat) :
    Option (List Msg) × Cnt :=
  let r := onPeriodicalAux (totalResponses periodicalStubs + 1) periodicalStubs hs cnt now rng
  (if r.1.isEmpty then none else some r.1, r.2)

/-- The shared stub registry, from `struct StubsHandle` in `src/ws/stubs.rs`:
three insertion-ordered sequences, one per stub kind. -/
structure Registry where
  on_connect : List Stub
  on_message : List Stub
  on_periodical : List Stub

/-- Initial outbound queue of a session, from the session-spawn block of
`Server::run` in `src/ws/mod.rs` (lines 92–98): a fresh `BinaryHeap` receives
the `on_connect` message when one matches — and nothing else.  `Server::run`
contains no call to `on_periodical`; the periodical stubs therefore never
reach a session's queue.  `none` models a panic inside materialization. -/
def sessionStartQueue (reg : Registry) (hs : Headers) (cnt : Cnt) (now rng : Nat) :
    Option (List Msg × Cnt) :=
  match on_connect reg.on_connect hs cnt now rng with
  | none => none
  | some none => some ([], cnt)
  | some (some (msg, cnt')) => some ([msg], cnt')

/-- Outcome of one `websocket.read()` call in the session loop of
`Server::run`: a frame already converted to a `Body` (a text frame is parsed
as JSON by the external parser and falls back to plain text), a
ping/pong/close frame to skip, an I/O error (timeout), or any other
tungstenite error. -/
inductive ReadResult where
  | frame (b : Body)
  | skip
  | ioErr
  | protocolErr

/-- Result of one iteration of the session loop: the remaining queue, the
counter state, the send attempts made while flushing (message and socket
outcome), whether the loop `break`s, and whether the iteration panicked. -/
structure StepResult where
  queue : List Msg
  cnt : Cnt
  sends : List (Msg × Bool)
  terminated : Bool
  panicked : Bool

/-- The flush phase at the top of the session loop in `Server::run` (lines
110–125): pop every queued message whose `available_at` is due
(`*when <= now`) and send it; the send's result is discarded
(`let _ = websocket.send(msg);`).  The queue is modeled as the list of
messages in pop order (earliest `available_at` first, matching the inverted
`Ord` on `Msg` driving the `BinaryHeap`); `sendOk i` is the socket outcome of
the i-th send of this flush. -/
def flushDue (queue : List Msg) (now : Nat) (sendOk : Nat → Bool) :
    List Msg × List (Msg × Bool) :=
  let due := queue.takeWhile (fun m => decide (m.available_at ≤ now))
  (queue.dropWhile (fun m => decide (m.available_at ≤ now)),
    due.enum.map (fun p => (p.2, sendOk p.1)))

/-- One iteration of the session loop of `Server::run` (lines 100–154): flush
due messages, then act on the read outcome — an I/O error or a skipped frame
loops again, any other error `break`s, and a frame is matched against the
message stubs, pushing the materialized reply (if any) onto the queue. -/
def sessionStep (messageStubs : List Stub) (hs : Headers) (queue : List Msg) (cnt : Cnt)
    (now rng : Nat) (sendOk : Nat → Bool) (r : ReadResult) : StepResult :=
  let fl := flushDue queue now sendOk
  match r with
  | .ioErr => ⟨fl.1, cnt, fl.2, false, false⟩
  | .skip => ⟨fl.1, cnt, fl.2, false, false⟩
  | .protocolErr => ⟨fl.1, cnt, fl.2, true, false⟩
  | .frame b =>
    match get_message messageStubs hs (some b) cnt now rng with
    | none => ⟨fl.1, cnt, fl.2, false, true⟩
    | some none => ⟨fl.1, cnt, fl.2, false, false⟩
    | some (some (msg, cnt')) =>
      ⟨List.orderedInsert (fun a b => a.available_at ≤ b.available_at) msg fl.1,
        cnt', fl.2, false, false⟩

/-- Abstract scheduler state of one session, tracking only the data relevant
to delivery order: the current instant, the `available_at` stamps sitting in
the outbound queue (kept sorted — the `BinaryHeap` with the inverted `Msg`
ordering always pops a message with minimal `available_at`), and the stamps of
the messages sent so far, in send order. -/
structure SchedState where
  now : Nat
  queue : List Nat
  sent : List Nat

/-- Transitions of the session scheduler, abstracted from the loop of
`Server::run`: time advances monotonically (`tick`); the flush phase sends
every due stamp, in queue order (`flush`, lines 110–125); `on_message`
materialization pushes a stamp `now + delay` with a non-negative delay, hence
`now ≤ t` (`push`, lines 151–153 with `Stub::message`). -/
inductive SchedStep : SchedState → SchedState → Prop
  | tick (s : SchedState) (now' : Nat) (h : s.now ≤ now') :
      SchedStep s ⟨now', s.queue, s.sent⟩
  | flush (s : SchedState) :
      SchedStep s ⟨s.now, s.queue.dropWhile (fun t => decide (t ≤ s.now)),
        s.sent ++ s.queue.takeWhile (fun t => decide (t ≤ s.now))⟩
  | push (s : SchedState) (t : Nat) (h : s.now ≤ t) :
      SchedStep s ⟨s.now, List.orderedInsert (· ≤ ·) t s.queue, s.sent⟩

/-- Invariant of the session scheduler: queue and send log are sorted, every
sent stamp is in the past, and no queued stamp precedes a sent one. -/
def SchedInv (s : SchedState) : Prop :=
  s.queue.Sorted (· ≤ ·) ∧ s.sent.Sorted (· ≤ ·) ∧
    (∀ x ∈ s.sent, x ≤ s.now) ∧ ∀ x ∈ s.sent, ∀ q ∈ s.queue, x ≤ q


/-- Delay normalization of `OnMessageBuilder::with_delay_interval_in` (and the
identical method of `OnPeriodicalBuilder`) in `src/ws/builders.rs`: equal
bounds become a `Fixed` delay, reversed bounds are swapped. -/
def with_delay_interval_in (lower upper : Nat) : Delay :=
  if lower = upper then .Fixed lower
  else if upper < lower then .Interval upper lower
  else .Interval lower upper

/-- Header matchers configured on a stub (empty when the optional map is
absent); spec-side view used to state the scoring contract. -/
def Stub.headerMatchers : Stub → List (String × TextMatcher)
  | .Connect headers _ => headers.getD []
  | .Message req _ _ => req.headers.getD []
  | .Periodical _ headers _ _ => headers.getD []

/-- Payload matcher configured on a stub (only a `Message` stub has one);
spec-side view used to state the scoring contract. -/
def Stub.payloadMatcher : Stub → Option BodyMatcher
  | .Message req _ _ => req.payload
  | _ => none

/-- Whether a `Periodical` stub's invocation counter has reached the end of
its response list; other stub kinds are never exhausted. -/
def Stub.exhausted (stub : Stub) (cnt : Cnt) : Bool :=
  match stub with
  | .Periodical id _ _ responses => !periodicalAvailable cnt id responses.length
  | _ => false

/-- Spec-side gate: some configured header matcher scores 0, or the payload
matcher scores 0, or the stub is an exhausted Periodical. -/
def Stub.gateZero (stub : Stub) (payload : Option Body) (hs : Headers) (cnt : Cnt) : Bool :=
  (stub.headerMatchers.any fun p => p.2.score (hs.lookup p.1) == 0)
  || (match stub.payloadMatcher with
      | none => false
      | some pm => pm.score payload == 0)
  || stub.exhausted cnt

/-- Spec-side sum of all configured matcher scores of a stub on an input. -/
def Stub.matcherSum (stub : Stub) (payload : Option Body) (hs : Headers) : Nat :=
  (stub.headerMatchers.map fun p => p.2.score (hs.lookup p.1)).sum
  + (match stub.payloadMatcher with
     | none => 0
     | some pm => pm.score payload)

/-- Concrete stub refuting C6 as stated: a Periodical stub with no matchers at
all, whose counter for id `p` already reached `responses.len() = 1`. -/
def c6stub : Stub := .Periodical "p" none (.Fixed 0) [.PlainText "a"]
/-- A Message stub carrying a raw `Interval(200, 200)` delay. -/
def c4interval : Stub := .Message ⟨none, none⟩ (.Interval 200 200) (.PlainText "x")
/-- The same stub with a `Fixed(200)` delay. -/
def c4fixed : Stub := .Message ⟨none, none⟩ (.Fixed 200) (.PlainText "x")
/-- The payload matcher of the repository test
`should_returns_on_message_when_json_body_like`:
`json_object!["name" => text_len_eq(4), "age" => int_gt(20)]`. -/
def c3matcher : JsonMatcher :=
  .Object [("name", .Str (.LenEq 4)), ("age", .Int (.GreaterThan 20))]
/-- The parsed JSON sent by that test:
`{"name": "John", "age": 30, "tags": ["dev", "rust", "json"]}`. -/
def c3value : Value :=
  .obj [("name", .str "John"), ("age", .num (.int 30)),
    ("tags", .arr [.str "dev", .str "rust", .str "json"])]
/-- The Periodical stub of the repository test `should_returns_on_periodical`:
two text responses with a fixed 200 ms delay. -/
def c1pstub : Stub := .Periodical "p1" none (.Fixed 200) [.PlainText "m1", .PlainText "m2"]
/-- A registry holding only that Periodical stub. -/
def c1reg : Registry := ⟨[], [], [c1pstub]⟩
/-- A concrete parser-image value exercising both integer paths, a float, a
string, nesting and a list. -/
def c9value : Value :=
  .obj [("name", .str "John"), ("age", .num (.int 30)),
    ("big", .num (.int (2 ^ 63 + 5))),
    ("xs", .arr [.num (.float (5 / 2)), .bool true, .null])]
/-- A due message sitting in the queue when a send fails. -/
def c2msg : Msg := ⟨.text "x", 0⟩
/-- The running maximum of the stub scores, as accumulated by the selection
fold of `get_message`. -/
def stubMax (payload : Option Body) (hs : Headers) (cnt : Cnt) (l : List Stub) : Nat :=
  (l.map (fun s => s.score payload hs cnt)).foldr max 0
/-- A catch-all Connect stub returning `A`. -/
def c5s1 : Stub := .Connect none (.PlainText "A")
/-- A Connect stub gated on header `a = x`, returning `B`. -/
def c5s2 : Stub := .Connect (some [("a", .Eq "x")]) (.PlainText "B")

/-- The header loop of `Stub::score` returns `none` exactly when some header
matcher scores 0, and otherwise the sum of the header scores. -/
theorem headersScore_eq (l : List (String × TextMatcher)) (hs : Headers) :
    headersScore l hs =
      if l.any (fun p => p.2.score (hs.lookup p.1) == 0) then none
      else some (l.map (fun p => p.2.score (hs.lookup p.1))).sum := by
  induction l with
  | nil => simp [headersScore]
  | cons p rest ih =>
    obtain ⟨k, m⟩ := p
    by_cases h : m.score (hs.lookup k) = 0
    · simp [headersScore, h]
    · simp only [headersScore, h, if_neg h, ih]
      by_cases hrest : rest.any (fun p => p.2.score (hs.lookup p.1) == 0)
      · simp [hrest, h]
      · simp [hrest, h]


/-- C6 (amended).  `Stub.score` returns 0 exactly when some configured header
matcher scores 0, or (for a `Message` stub) the payload matcher scores 0, or
(for a `Periodical` stub) the invocation counter has reached the end of the
response list; otherwise it returns 1 (the base) plus the sum of all matcher
scores, so each additional satisfied constraint strictly increases the
score. -/
theorem claim_C6 (stub : Stub) (payload : Option Body) (hs : Headers) (cnt : Cnt) :
    stub.score payload hs cnt =
      if stub.gateZero payload hs cnt then 0 else 1 + stub.matcherSum payload hs := by
  cases stub with
  | Connect headers response =>
    cases headers with
    | none =>
      simp [Stub.score, Stub.gateZero, Stub.headerMatchers, Stub.payloadMatcher,
        Stub.exhausted, Stub.matcherSum]
    | some hm =>
      simp only [Stub.score, Stub.gateZero, Stub.headerMatchers, Stub.payloadMatcher,
        Stub.exhausted, Stub.matcherSum, Option.getD_some, headersScore_eq]
      by_cases h : hm.any (fun p => p.2.score (hs.lookup p.1) == 0)
      · simp [h]
      · simp [h]
  | Message req delay response =>
    obtain ⟨hdrs, pm⟩ := req
    cases hdrs with
    | none =>
      cases pm with
      | none =>
        simp [Stub.score, Stub.gateZero, Stub.headerMatchers, Stub.payloadMatcher,
          Stub.exhausted, Stub.matcherSum]
      | some pmm =>
        by_cases hp : pmm.score payload = 0
        · simp [Stub.score, Stub.gateZero, Stub.headerMatchers, Stub.payloadMatcher,
            Stub.exhausted, Stub.matcherSum, hp]
        · simp [Stub.score, Stub.gateZero, Stub.headerMatchers, Stub.payloadMatcher,
            Stub.exhausted, Stub.matcherSum, hp]
    | some hm =>
      simp only [Stub.score, Stub.gateZero, Stub.headerMatchers, Stub.payloadMatcher,
        Stub.exhausted, Stub.matcherSum, Option.getD_some, headersScore_eq]
      by_cases h : hm.any (fun p => p.2.score (hs.lookup p.1) == 0)
      · cases pm <;> simp [h]
      · cases pm with
        | none => simp [h]
        | some pmm =>
          by_cases hp : pmm.score payload = 0
          · simp [h, hp]
          · simp [h, hp, Nat.add_assoc]
  | Periodical id headers delay responses =>
    cases headers with
    | none =>
      by_cases ha : periodicalAvailable cnt id responses.length
      · simp [Stub.score, Stub.gateZero, Stub.headerMatchers, Stub.payloadMatcher,
          Stub.exhausted, Stub.matcherSum, ha]
      · simp [Stub.score, Stub.gateZero, Stub.headerMatchers, Stub.payloadMatcher,
          Stub.exhausted, Stub.matcherSum, ha]
    | some hm =>
      simp only [Stub.score, Stub.gateZero, Stub.headerMatchers, Stub.payloadMatcher,
        Stub.exhausted, Stub.matcherSum, Option.getD_some, headersScore_eq]
      by_cases h : hm.any (fun p => p.2.score (hs.lookup p.1) == 0)
      · simp [h]
      · by_cases ha : periodicalAvailable cnt id responses.length
        · simp [h, ha]
        · simp [h, ha]


/-- C6 counterexample.  For `c6stub` with counter `p ↦ 1`, no configured
matcher scores 0 (there are none), so the claim as stated predicts a score of
`1 + 0`; the code returns 0 because the Periodical is exhausted. -/
theorem claim_C6_cex :
    Stub.score c6stub none [] [("p", 1)] = 0
    ∧ c6stub.headerMatchers = []
    ∧ c6stub.payloadMatcher = none
    ∧ Stub.score c6stub none [] [("p", 1)] ≠ 1 + c6stub.matcherSum none [] :=
  ⟨rfl, rfl, rfl, by decide⟩

/-- C4 (amended).  The builder normalizes an interval delay with equal bounds
to a `Fixed` delay, so a stub built through `with_delay_interval_in(d, d)`
materializes with `available_at = now + d`, exactly as with
`with_fixed_delay(d)`. -/
theorem claim_C4 (d now rng : Nat) (cnt : Cnt) (req : RequestMatcher) (b : Body) :
    with_delay_interval_in d d = Delay.Fixed d
    ∧ Stub.message (.Message req (with_delay_interval_in d d) b) cnt now rng
        = some (⟨b.toFrame, now + d⟩, cnt)
    ∧ Stub.message (.Message req (.Fixed d) b) cnt now rng
        = some (⟨b.toFrame, now + d⟩, cnt) := by
  refine ⟨by simp [with_delay_interval_in], ?_, ?_⟩
  · simp [with_delay_interval_in, Stub.message, delayedAt]
  · simp [Stub.message, delayedAt]



/-- C4 counterexample.  Materializing a stub whose delay is literally
`Interval(200, 200)` panics — `random_range(200..200)` samples an empty range
(`none` in the model) — while the `Fixed(200)` stub materializes to
`available_at = now + 200`; so the two are not equivalent at `Stub::message`
level, and materialization does not succeed. -/
theorem claim_C4_cex :
    Stub.message c4interval [] 0 0 = none
    ∧ Stub.message c4fixed [] 0 0 = some (⟨.text "x", 200⟩, []) :=
  ⟨rfl, rfl⟩

/-- C10 (confirmed).  The `Ord` on `Msg` is inverted with respect to
`available_at`: whenever `b` is due no later than `a`, `cmp a b` is `Less`, and
`cmp a b = Greater` holds exactly when `a` is due strictly earlier than `b` —
so the max-heap `BinaryHeap` always pops a message with minimal deadline.  On
equal deadlines the comparison returns `Less` in both directions (the order is
not antisymmetric: ties have no defined relative order), and `cmp` never
returns `Equal`. -/
theorem claim_C10 (a b : Msg) :
    (b.available_at ≤ a.available_at → Msg.cmp a b = .lt)
    ∧ (Msg.cmp a b = .gt ↔ a.available_at < b.available_at)
    ∧ (a.available_at = b.available_at → Msg.cmp a b = .lt ∧ Msg.cmp b a = .lt)
    ∧ Msg.cmp a b ≠ .eq := by
  refine ⟨fun h => ?_, ?_, fun h => ⟨?_, ?_⟩, ?_⟩
  · simp [Msg.cmp, h]
  · by_cases h : b.available_at ≤ a.available_at
    · simp [Msg.cmp, h]
    · simp [Msg.cmp, h]; omega
  · simp [Msg.cmp, h]
  · simp [Msg.cmp, h]
  · by_cases h : b.available_at ≤ a.available_at
    · simp [Msg.cmp, h]
    · simp [Msg.cmp, h]

/-- C10 witness: two distinct messages sharing deadline 3 compare `Less` in
both directions. -/
theorem claim_C10_witness :
    Msg.cmp ⟨.text "a", 3⟩ ⟨.text "b", 3⟩ = .lt
    ∧ Msg.cmp ⟨.text "b", 3⟩ ⟨.text "a", 3⟩ = .lt :=
  (claim_C10 ⟨.text "a", 3⟩ ⟨.text "b", 3⟩).2.2.1 rfl


/-- The list arm helper returns `none` exactly when some zipped child scores
0, and otherwise the sum of the zipped children's scores. -/
theorem jsonScoreList_eq (ms : List JsonMatcher) (vs : List JsonValue) :
    jsonScoreList ms vs =
      if (ms.zip vs).any (fun p => jsonScore p.1 (some p.2) == 0) then none
      else some ((ms.zip vs).map (fun p => jsonScore p.1 (some p.2))).sum := by
  induction ms generalizing vs with
  | nil => simp [jsonScoreList]
  | cons m ms ih =>
    cases vs with
    | nil => simp [jsonScoreList]
    | cons v vs =>
      by_cases h : jsonScore m (some v) = 0
      · simp [jsonScoreList, h]
      · simp only [jsonScoreList, if_neg h, ih vs, List.zip_cons_cons, List.any_cons,
          List.map_cons, List.sum_cons]
        by_cases hrest : (ms.zip vs).any (fun p => jsonScore p.1 (some p.2) == 0)
        · simp [hrest, h]
        · simp [hrest, h]

/-- C8 (confirmed).  `JsonMatcher::score` on `List(matchers)` against
`List(values)` zips the two sequences pairwise, stopping at the shorter one —
extra values or extra matchers are ignored: the result is 0 when some zipped
child scores 0 and otherwise the sum of the zipped children's scores (in
particular, against a longer value list the score is the zipped sum). -/
theorem claim_C8 (ms : List JsonMatcher) (vs : List JsonValue) :
    ((∃ p ∈ ms.zip vs, jsonScore p.1 (some p.2) = 0) →
      jsonScore (.List ms) (some (.List vs)) = 0)
    ∧ ((∀ p ∈ ms.zip vs, jsonScore p.1 (some p.2) ≠ 0) →
      jsonScore (.List ms) (some (.List vs))
        = ((ms.zip vs).map (fun p => jsonScore p.1 (some p.2))).sum) := by
  have hls : jsonScore (.List ms) (some (.List vs)) = (jsonScoreList ms vs).getD 0 := by
    simp [jsonScore]
  constructor
  · intro hex
    rw [hls, jsonScoreList_eq]
    have hany : (ms.zip vs).any (fun p => jsonScore p.1 (some p.2) == 0) = true := by
      rcases hex with ⟨p, hp, hp0⟩
      exact List.any_eq_true.mpr ⟨p, hp, by simp [hp0]⟩
    simp [hany]
  · intro hall
    rw [hls, jsonScoreList_eq]
    have hany : (ms.zip vs).any (fun p => jsonScore p.1 (some p.2) == 0) = false := by
      rw [List.any_eq_false]
      intro p hp
      simpa using hall p hp
    simp [hany]

/-- C8 witness: one matcher zipped against a longer two-element value list
scores the zipped sum `1`. -/
theorem claim_C8_witness :
    jsonScore (.List [.Null]) (some (.List [.Null, .Bool true])) = 1 :=
  Eq.trans ((claim_C8 [.Null] [.Null, .Bool true]).2 (by decide)) (by decide)



/-- C3 (code bug).  The integer `30` parsed from external JSON lands in the
`NegativeInt` variant (`is_i64` holds for any parsed integer in `i64` range),
`JsonMatcher::score` has no arm connecting `Int` matchers to that variant —
its `Int` arm pattern-matches a `JsonValue::Int` variant that `src/json.rs`
does not define — so the `GreaterThan(20)` matcher under the `age` key falls
through to the catch-all and the whole object scores 0, even though the
underlying scalar matcher scores `3` on `30`.  This contradicts the
repository's own test `should_returns_on_message_when_json_body_like`. -/
theorem claim_C3_int_matcher_bug :
    fromValue c3value
      = JsonValue.Object [("name", .Str "John"), ("age", .NegativeInt 30),
          ("tags", .List [.Str "dev", .Str "rust", .Str "json"])]
    ∧ jsonScore c3matcher (some (fromValue c3value)) = 0
    ∧ jsonScore (.Int (.GreaterThan 20)) (some (.NegativeInt 30)) = 0
    ∧ IntMatcher.score (.GreaterThan 20) (some 30) = 3 :=
  ⟨rfl, by decide, rfl, rfl⟩



/-- C1 (code bug).  `StubsHandle::on_periodical` does materialize the full
response sequence in order (`m1` then `m2`, each with `available_at =
now + 200`), but the session-spawn block of `Server::run` never calls it: the
initial outbound queue of a fresh session against this registry is empty, so a
connecting client receives none of the periodical responses — contradicting
the repository's own test `should_returns_on_periodical`. -/
theorem claim_C1_periodical_never_pushed :
    sessionStartQueue c1reg [] [] 0 0 = some ([], [])
    ∧ (on_periodical c1reg.on_periodical [] [] 0 0).1
        = some [⟨.text "m1", 200⟩, ⟨.text "m2", 200⟩] :=
  ⟨rfl, rfl⟩


mutual

/-- Round trip of a single parser-wellformed value through the two `From`
conversions of `src/json.rs`: an `i64`-range integer travels through
`NegativeInt` and `Number::from_i128`, an integer beyond `i64` through
`PositiveInt` and `Number::from_u128`, a finite float through `Float` and
`Number::from_f64`; containers convert elementwise. -/
theorem toValue_fromValue : ∀ (v : Value), valueWF v = true → toValue (fromValue v) = v
  | .null, _ => rfl
  | .bool _, _ => rfl
  | .str _, _ => rfl
  | .num (.float _), _ => rfl
  | .num (.int n), h => by
    simp only [valueWF, decide_eq_true_eq] at h
    simp only [fromValue]
    split_ifs with h1 h2
    · rfl
    · simp only [toValue]
      rw [Int.toNat_of_nonneg h2.1]
    · exact absurd (show 0 ≤ n ∧ n < 2 ^ 64 by omega) h2
  | .arr l, h => by
    simp only [valueWF] at h
    simp only [fromValue, toValue]
    rw [toValueList_fromValueList l h]
  | .obj m, h => by
    simp only [valueWF] at h
    simp only [fromValue, toValue]
    rw [toValueObject_fromValueObject m h]
termination_by structural v => v

/-- Elementwise round trip of a wellformed JSON array. -/
theorem toValueList_fromValueList :
    ∀ (l : List Value), valueWFList l = true → toValueList (fromValueList l) = l
  | [], _ => rfl
  | v :: vs, h => by
    simp only [valueWFList, Bool.and_eq_true] at h
    simp only [fromValueList, toValueList]
    rw [toValue_fromValue v h.1, toValueList_fromValueList vs h.2]
termination_by structural l => l

/-- Entrywise round trip of a wellformed JSON object. -/
theorem toValueObject_fromValueObject :
    ∀ (m : List (String × Value)), valueWFObject m = true →
      toValueObject (fromValueObject m) = m
  | [], _ => rfl
  | (k, v) :: vs, h => by
    simp only [valueWFObject, Bool.and_eq_true] at h
    simp only [fromValueObject, toValueObject]
    rw [toValue_fromValue v h.1, toValueObject_fromValueObject vs h.2]
termination_by structural m => m

end

/-- C9 (confirmed).  For every value `v` in the image of the external JSON
parser (`valueWF v`: all integers in the union of the `i64` and `u64` ranges,
which is exactly what `serde_json` can produce), serializing the converted
`JsonValue` reproduces `v`, and hence parsing the serialized form back yields
a structurally equal `JsonValue`.  The external text layer is the identity on
`Value` (serde round trip), so the statement at `Value` level captures the
`JsonValue → canonical JSON text → JsonValue` round trip. -/
theorem claim_C9 (v : Value) (h : valueWF v = true) :
    toValue (fromValue v) = v ∧ fromValue (toValue (fromValue v)) = fromValue v := by
  have hv := toValue_fromValue v h
  exact ⟨hv, by rw [hv]⟩


/-- C9 witness: the round trip on `c9value`. -/
theorem claim_C9_witness :
    toValue (fromValue c9value) = c9value
    ∧ fromValue (toValue (fromValue c9value)) = fromValue c9value :=
  claim_C9 c9value (by decide)


/-- The send attempts of a flush are exactly the due prefix of the queue, in
order, whatever the socket outcomes are. -/
theorem flushDue_sends_fst (queue : List Msg) (now : Nat) (f : Nat → Bool) :
    (flushDue queue now f).2.map Prod.fst
      = queue.takeWhile (fun m => decide (m.available_at ≤ now)) := by
  simp [flushDue, List.map_map, Function.comp_def, List.enum_map_snd]


/-- C2 counterexample.  One loop iteration with a single due message whose
send fails (`sendOk` constantly `false`) and a read timeout: the message is
popped and its failed send recorded, but `terminated = false` — the session
keeps running its read/flush loop, contrary to the claim that a send error
terminates the session. -/
theorem claim_C2_cex :
    sessionStep [] [] [c2msg] [] 0 0 (fun _ => false) .ioErr
      = ⟨[], [], [(c2msg, false)], false, false⟩ :=
  rfl

/-- C2 (amended).  A failed outbound send is ignored by the session loop
(`let _ = websocket.send(msg)`): the failed message is not requeued — the
flush removes exactly the due prefix regardless of socket outcomes — and no
component of the session state depends on the send results; the loop
terminates only when a read returns a non-I/O error. -/
theorem claim_C2 (stubs : List Stub) (hs : Headers) (queue : List Msg) (cnt : Cnt)
    (now rng : Nat) (f g : Nat → Bool) (r : ReadResult) :
    (sessionStep stubs hs queue cnt now rng f r).queue
        = (sessionStep stubs hs queue cnt now rng g r).queue
    ∧ (sessionStep stubs hs queue cnt now rng f r).cnt
        = (sessionStep stubs hs queue cnt now rng g r).cnt
    ∧ (sessionStep stubs hs queue cnt now rng f r).terminated
        = (sessionStep stubs hs queue cnt now rng g r).terminated
    ∧ (sessionStep stubs hs queue cnt now rng f r).panicked
        = (sessionStep stubs hs queue cnt now rng g r).panicked
    ∧ (sessionStep stubs hs queue cnt now rng f r).sends.map Prod.fst
        = (sessionStep stubs hs queue cnt now rng g r).sends.map Prod.fst
    ∧ ((sessionStep stubs hs queue cnt now rng f r).terminated = true ↔ r = .protocolErr)
    ∧ (sessionStep stubs hs queue cnt now rng f r).sends.map Prod.fst
        = queue.takeWhile (fun m => decide (m.available_at ≤ now))
    ∧ (r = .ioErr →
        (sessionStep stubs hs queue cnt now rng f r).queue
          = queue.dropWhile (fun m => decide (m.available_at ≤ now))) := by
  cases r with
  | ioErr =>
    exact ⟨rfl, rfl, rfl, rfl,
      (flushDue_sends_fst queue now f).trans (flushDue_sends_fst queue now g).symm,
      by simp [sessionStep], flushDue_sends_fst queue now f, fun _ => rfl⟩
  | skip =>
    exact ⟨rfl, rfl, rfl, rfl,
      (flushDue_sends_fst queue now f).trans (flushDue_sends_fst queue now g).symm,
      by simp [sessionStep], flushDue_sends_fst queue now f, fun h => nomatch h⟩
  | protocolErr =>
    exact ⟨rfl, rfl, rfl, rfl,
      (flushDue_sends_fst queue now f).trans (flushDue_sends_fst queue now g).symm,
      by simp [sessionStep], flushDue_sends_fst queue now f, fun h => nomatch h⟩
  | frame b =>
    cases hgm : get_message stubs hs (some b) cnt now rng with
    | none =>
      refine ⟨?_, ?_, ?_, ?_, ?_, ?_, ?_, fun h => nomatch h⟩ <;>
        simp [sessionStep, hgm, flushDue, List.map_map, Function.comp_def, List.enum_map_snd]
    | some r' =>
      cases r' with
      | none =>
        refine ⟨?_, ?_, ?_, ?_, ?_, ?_, ?_, fun h => nomatch h⟩ <;>
          simp [sessionStep, hgm, flushDue, List.map_map, Function.comp_def, List.enum_map_snd]
      | some p =>
        refine ⟨?_, ?_, ?_, ?_, ?_, ?_, ?_, fun h => nomatch h⟩ <;>
          simp [sessionStep, hgm, flushDue, List.map_map, Function.comp_def, List.enum_map_snd]

/-- C2 witness: the amended statement at the counterexample's input, showing a
failing and a succeeding send policy agree on the resulting state and the
session is not terminated by the timeout read. -/
theorem claim_C2_witness :
    (sessionStep [] [] [c2msg] [] 0 0 (fun _ => false) .ioErr).terminated = false
    ∧ (sessionStep [] [] [c2msg] [] 0 0 (fun _ => false) .ioErr).queue
        = (sessionStep [] [] [c2msg] [] 0 0 (fun _ => true) .ioErr).queue := by
  have h := claim_C2 [] [] [c2msg] [] 0 0 (fun _ => false) (fun _ => true) .ioErr
  refine ⟨?_, h.1⟩
  have h6 := h.2.2.2.2.2.1
  simp at h6
  simpa using h6



/-- Every element of a list of naturals is bounded by its folded maximum. -/
theorem le_foldr_max (l : List Nat) (x : Nat) (hx : x ∈ l) : x ≤ l.foldr max 0 := by
  induction l with
  | nil => cases hx
  | cons a t ih =>
    rcases List.mem_cons.mp hx with rfl | hx'
    · exact Nat.le_max_left _ _
    · exact le_trans (ih hx') (Nat.le_max_right _ _)

/-- The folded maximum of a list of naturals is bounded by any common upper
bound. -/
theorem foldr_max_le (l : List Nat) (c : Nat) (h : ∀ x ∈ l, x ≤ c) : l.foldr max 0 ≤ c := by
  induction l with
  | nil => exact Nat.zero_le c
  | cons a t ih =>
    exact max_le (h a (List.mem_cons_self a t))
      (ih fun x hx => h x (List.mem_cons_of_mem a hx))

/-- The folded maximum of a list of naturals is zero or one of its elements. -/
theorem foldr_max_mem (l : List Nat) : l.foldr max 0 = 0 ∨ l.foldr max 0 ∈ l := by
  induction l with
  | nil => exact Or.inl rfl
  | cons a t ih =>
    rcases max_choice a (t.foldr max 0) with h | h
    · right
      simp only [List.foldr_cons, h]
      exact List.mem_cons_self a t
    · rcases ih with h0 | hm
      · left
        rw [List.foldr_cons, h]
        exact h0
      · right
        simp only [List.foldr_cons, h]
        exact List.mem_cons_of_mem a hm

/-- `find?` returns the element at the first index satisfying the predicate
when all earlier indices fail it. -/
theorem list_find?_first {α : Type} (p : α → Bool) :
    ∀ (l : List α) (i : Nat) (hi : i < l.length),
      p (l.get ⟨i, hi⟩) = true →
      (∀ (j : Nat) (hj : j < i), p (l.get ⟨j, Nat.lt_trans hj hi⟩) = false) →
      l.find? p = some (l.get ⟨i, hi⟩)
  | [], i, hi, _, _ => absurd hi (Nat.not_lt_zero i)
  | a :: t, 0, _, hp, _ => List.find?_cons_of_pos t hp
  | a :: t, i + 1, hi, hp, hbefore => by
    have ha : p a = false := hbefore 0 (Nat.succ_pos i)
    rw [List.find?_cons_of_neg _ (by simp [ha])]
    exact list_find?_first p t i (Nat.lt_of_succ_lt_succ hi) hp
      (fun j hj => hbefore (j + 1) (Nat.succ_lt_succ hj))

/-- Characterization of the selection fold of `get_message`: starting from
accumulator `(b, m)`, the fold is the identity when no stub beats `m`, and
otherwise lands on the first stub attaining the maximal score. -/
theorem selectGo_eq (payload : Option Body) (hs : Headers) (cnt : Cnt) :
    ∀ (l : List Stub) (b : Option Stub) (m : Nat),
      selectGo payload hs cnt l (b, m) =
        if stubMax payload hs cnt l ≤ m then (b, m)
        else (l.find? (fun s => s.score payload hs cnt == stubMax payload hs cnt l),
              stubMax payload hs cnt l)
  | [], b, m => by
    simp [selectGo, stubMax]
  | s :: t, b, m => by
    have hmax : stubMax payload hs cnt (s :: t)
        = max (s.score payload hs cnt) (stubMax payload hs cnt t) := by
      simp [stubMax]
    by_cases hm : m < s.score payload hs cnt
    · have hstep : selectGo payload hs cnt (s :: t) (b, m)
          = selectGo payload hs cnt t (some s, s.score payload hs cnt) := by
        simp [selectGo, hm]
      rw [hstep, selectGo_eq payload hs cnt t]
      by_cases hMt : stubMax payload hs cnt t ≤ s.score payload hs cnt
      · have hM : stubMax payload hs cnt (s :: t) = s.score payload hs cnt := by
          rw [hmax]
          exact Nat.max_eq_left hMt
        rw [if_pos hMt, hM, if_neg (by omega), List.find?_cons_of_pos _ (by simp)]
      · have hlt : s.score payload hs cnt < stubMax payload hs cnt t := not_le.mp hMt
        have hM : stubMax payload hs cnt (s :: t) = stubMax payload hs cnt t := by
          rw [hmax]
          exact Nat.max_eq_right (le_of_lt hlt)
        rw [if_neg hMt, hM, if_neg (by omega),
          List.find?_cons_of_neg _ (by simp ; omega)]
    · have hstep : selectGo payload hs cnt (s :: t) (b, m)
          = selectGo payload hs cnt t (b, m) := by
        simp [selectGo, hm]
      rw [hstep, selectGo_eq payload hs cnt t]
      by_cases hMt : stubMax payload hs cnt t ≤ m
      · have hM : stubMax payload hs cnt (s :: t) ≤ m := by
          rw [hmax]
          exact max_le (le_of_not_lt hm) hMt
        rw [if_pos hMt, if_pos hM]
      · have hlt : m < stubMax payload hs cnt t := not_le.mp hMt
        have hM : stubMax payload hs cnt (s :: t) = stubMax payload hs cnt t := by
          rw [hmax]
          exact Nat.max_eq_right (by omega)
        rw [if_neg hMt, hM, if_neg (by omega),
          List.find?_cons_of_neg _ (by simp ; omega)]


/-- C5 (confirmed).  Registry selection (`get_message`): when every registered
stub of the scanned kind scores 0, the result is `None` (and conversely); and
whenever index `i` holds a positively-scoring stub whose score strictly
exceeds every earlier stub's score and is at least every stub's score — the
first-registered stub among maximal ones — the result is exactly the
materialization of that stub. -/
theorem claim_C5 (stubs : List Stub) (hs : Headers) (payload : Option Body) (cnt : Cnt)
    (now rng : Nat) :
    (get_message stubs hs payload cnt now rng = some none
      ↔ ∀ s ∈ stubs, s.score payload hs cnt = 0)
    ∧ ∀ (i : Nat) (hi : i < stubs.length),
        0 < (stubs.get ⟨i, hi⟩).score payload hs cnt →
        (∀ (j : Nat) (hj : j < i),
          (stubs.get ⟨j, Nat.lt_trans hj hi⟩).score payload hs cnt
            < (stubs.get ⟨i, hi⟩).score payload hs cnt) →
        (∀ (j : Nat) (hj : j < stubs.length),
          (stubs.get ⟨j, hj⟩).score payload hs cnt
            ≤ (stubs.get ⟨i, hi⟩).score payload hs cnt) →
        get_message stubs hs payload cnt now rng
          = match (stubs.get ⟨i, hi⟩).message cnt now rng with
            | none => none
            | some r => some (some r) := by
  have hsel : selectStub stubs hs payload cnt
      = if stubMax payload hs cnt stubs ≤ 0 then none
        else stubs.find? (fun s => s.score payload hs cnt == stubMax payload hs cnt stubs) := by
    unfold selectStub
    rw [selectGo_eq]
    by_cases h : stubMax payload hs cnt stubs ≤ 0
    · rw [if_pos h, if_pos h]
    · rw [if_neg h, if_neg h]
  constructor
  · constructor
    · intro hg
      have hnone : selectStub stubs hs payload cnt = none := by
        by_contra hne
        rcases Option.ne_none_iff_exists'.mp hne with ⟨stub, hstub⟩
        unfold get_message at hg
        rw [hstub] at hg
        revert hg
        cases hmsg : stub.message cnt now rng <;> simp [hmsg]
      rw [hsel] at hnone
      by_cases h : stubMax payload hs cnt stubs ≤ 0
      · intro s hsm
        have hle := le_foldr_max (stubs.map (fun s => s.score payload hs cnt)) _
          (List.mem_map_of_mem (fun s => s.score payload hs cnt) hsm)
        unfold stubMax at h
        omega
      · exfalso
        rw [if_neg h] at hnone
        have hmem : stubMax payload hs cnt stubs
            ∈ stubs.map (fun s => s.score payload hs cnt) := by
          rcases foldr_max_mem (stubs.map (fun s => s.score payload hs cnt)) with h0 | hm
          · exact absurd (show stubMax payload hs cnt stubs ≤ 0 by unfold stubMax ; omega) h
          · exact hm
        rcases List.mem_map.mp hmem with ⟨s, hsm, hscore⟩
        rw [List.find?_eq_none] at hnone
        exact hnone s hsm (by simp [hscore])
    · intro hall
      have hmax0 : stubMax payload hs cnt stubs ≤ 0 := by
        apply foldr_max_le
        intro x hx
        rcases List.mem_map.mp hx with ⟨s, hsm, rfl⟩
        exact le_of_eq (hall s hsm)
      have hn : selectStub stubs hs payload cnt = none := by
        rw [hsel, if_pos hmax0]
      unfold get_message
      rw [hn]
  · intro i hi h0 hbefore hall
    have hscmem : (stubs.get ⟨i, hi⟩).score payload hs cnt
        ∈ stubs.map (fun s => s.score payload hs cnt) :=
      List.mem_map_of_mem (fun s => s.score payload hs cnt) (stubs.get_mem i hi)
    have hle : (stubs.get ⟨i, hi⟩).score payload hs cnt ≤ stubMax payload hs cnt stubs :=
      le_foldr_max _ _ hscmem
    have hge : stubMax payload hs cnt stubs ≤ (stubs.get ⟨i, hi⟩).score payload hs cnt := by
      apply foldr_max_le
      intro x hx
      rcases List.mem_map.mp hx with ⟨s, hsm, rfl⟩
      rcases List.getElem_of_mem hsm with ⟨j, hj, rfl⟩
      exact hall j hj
    have hM : stubMax payload hs cnt stubs = (stubs.get ⟨i, hi⟩).score payload hs cnt :=
      le_antisymm hge hle
    have hfind : stubs.find?
        (fun s => s.score payload hs cnt == stubMax payload hs cnt stubs)
        = some (stubs.get ⟨i, hi⟩) := by
      apply list_find?_first
      · simp [hM]
      · intro j hj
        simp only [hM, beq_eq_false_iff_ne, ne_eq]
        exact Nat.ne_of_lt (hbefore j hj)
    have hsel2 : selectStub stubs hs payload cnt = some (stubs.get ⟨i, hi⟩) := by
      rw [hsel, if_neg (by omega), hfind]
    unfold get_message
    rw [hsel2]



/-- C5 witness: with the matching header present, `c5s1` scores 1 and `c5s2`
scores 9, so the second-registered, strictly better stub is materialized. -/
theorem claim_C5_witness :
    get_message [c5s1, c5s2] [("a", "x")] none [] 0 0
      = some (some (⟨.text "B", 0⟩, [])) :=
  Eq.trans
    ((claim_C5 [c5s1, c5s2] [("a", "x")] none [] 0 0).2 1 (by decide)
      (by decide) (by decide) (by decide))
    rfl


/-- In a sorted queue, everything left after dropping the due prefix is
strictly later than `n`. -/
theorem sorted_dropWhile_gt (q : List Nat) (n : Nat) (hq : q.Sorted (· ≤ ·)) :
    ∀ x ∈ q.dropWhile (fun t => decide (t ≤ n)), n < x := by
  induction hq with
  | nil =>
    intro x hx
    exact absurd hx (List.not_mem_nil x)
  | @cons a t hrel htail ih =>
    intro x hx
    rw [List.dropWhile_cons] at hx
    by_cases ha : a ≤ n
    · simp [ha] at hx
      exact ih x hx
    · simp [ha] at hx
      rcases hx with rfl | hx'
      · exact not_le.mp ha
      · exact lt_of_lt_of_le (not_le.mp ha) (hrel x hx')

/-- Every scheduler transition preserves the scheduler invariant. -/
theorem schedInv_step {s1 s2 : SchedState} (h : SchedStep s1 s2) (hinv : SchedInv s1) :
    SchedInv s2 := by
  obtain ⟨hq, hse, hpast, hcross⟩ := hinv
  cases h with
  | tick now' hnow =>
    exact ⟨hq, hse, fun x hx => le_trans (hpast x hx) hnow, hcross⟩
  | flush =>
    refine ⟨?_, ?_, ?_, ?_⟩
    · exact List.Pairwise.sublist (List.dropWhile_suffix _).sublist hq
    · refine List.pairwise_append.mpr
        ⟨hse, List.Pairwise.sublist (List.takeWhile_prefix _).sublist hq, ?_⟩
      intro x hx y hy
      exact hcross x hx y ((List.takeWhile_prefix _).sublist.subset hy)
    · intro x hx
      rcases List.mem_append.mp hx with hx' | hx'
      · exact hpast x hx'
      · have h1 := List.mem_takeWhile_imp hx'
        exact of_decide_eq_true h1
    · intro x hx q' hq'
      rcases List.mem_append.mp hx with hx' | hx'
      · exact hcross x hx' q' ((List.dropWhile_suffix _).sublist.subset hq')
      · have h1' := List.mem_takeWhile_imp hx'
        have h1 : x ≤ s1.now := of_decide_eq_true h1'
        have h2 : s1.now < q' := sorted_dropWhile_gt s1.queue s1.now hq q' hq'
        omega
  | push t hnow =>
    refine ⟨?_, hse, hpast, ?_⟩
    · exact List.Sorted.orderedInsert t s1.queue hq
    · intro x hx q' hq'
      have hmem := (List.perm_orderedInsert (· ≤ ·) t s1.queue).mem_iff.mp hq'
      rcases List.mem_cons.mp hmem with rfl | hmem'
      · exact le_trans (hpast x hx) hnow
      · exact hcross x hx q' hmem'

/-- The scheduler invariant holds in every reachable state. -/
theorem schedInv_reach {s0 s : SchedState} (h0 : SchedInv s0)
    (h : Relation.ReflTransGen SchedStep s0 s) : SchedInv s := by
  induction h with
  | refl => exact h0
  | tail _ hstep ih => exact schedInv_step hstep ih

/-- C7 (confirmed).  Along every interleaving of flushes, inbound pushes (with
non-negative delays) and clock advances allowed by the session loop, the
sequence of `available_at` stamps of the messages actually sent on the socket
is non-decreasing. -/
theorem claim_C7 (now0 : Nat) (q0 : List Nat) (hq : q0.Sorted (· ≤ ·))
    (s : SchedState) (h : Relation.ReflTransGen SchedStep ⟨now0, q0, []⟩ s) :
    s.sent.Sorted (· ≤ ·) := by
  have hinv : SchedInv ⟨now0, q0, []⟩ :=
    ⟨hq, List.sorted_nil, fun x hx => absurd hx (List.not_mem_nil x),
      fun x hx => absurd hx (List.not_mem_nil x)⟩
  exact (schedInv_reach hinv h).2.1

/-- C7 witness: a concrete session trace — push a message due at 5, advance
the clock to 5, flush — reaches the state with send log `[5]`, which the
claim theorem certifies to be sorted. -/
theorem claim_C7_witness : (SchedState.mk 5 [] [5]).sent.Sorted (· ≤ ·) :=
  claim_C7 0 [] List.sorted_nil ⟨5, [], [5]⟩
    (Relation.ReflTransGen.tail
      (Relation.ReflTransGen.tail
        (Relation.ReflTransGen.tail Relation.ReflTransGen.refl
          (SchedStep.push ⟨0, [], []⟩ 5 (Nat.zero_le 5)))
        (SchedStep.tick ⟨0, [5], []⟩ 5 (Nat.zero_le 5)))
      (SchedStep.flush ⟨5, [5], []⟩))

